import Mathlib

/-!
Verification development for the cellular-automaton repository
(Conway's Game of Life with SDL2/terminal rendering backends).

The development shallowly embeds the three C++ translation units:
  * `Program_04/main.cpp`  — defaults merge, main simulation loop;
  * `Screen.hpp`           — the `SdlScreen::render` / `pause` backend;
  * the SDL2 grid example  — shapes.json loading, centering, frame loop.
Grids are `List (List Int)`, SDL drawing is modelled as a list of
emitted commands, and the main loops as event traces.
-/

set_option autoImplicit false

/-- A grid of integer cell states, mirroring
`std::vector<std::vector<int>>` in the C++ source. -/
abbrev Grid := List (List Int)

/-- Modelled from the spec: `includes/ConwayLife.hpp` is not present in the
repository sources, only its caller `Program_04/main.cpp`.  Reads the cell at
(signed) coordinates `(r, c)` of the grid, treating every out-of-range
position as dead (`0`), the usual bounded-grid convention for the
"fixed-neighborhood update rule on a 2D grid" the spec describes. -/
def cellAt (g : Grid) (r c : Int) : Int :=
  if r < 0 ∨ c < 0 then 0
  else ((g.getD r.toNat []).getD c.toNat 0)

/-- The eight Moore-neighborhood offsets around a cell. -/
def neighborOffsets : List (Int × Int) :=
  [(-1, -1), (-1, 0), (-1, 1), (0, -1), (0, 1), (1, -1), (1, 0), (1, 1)]

/-- Modelled from the spec: the live-neighbor count of cell `(r, c)`,
the number of the eight surrounding cells whose state is `1`. -/
def liveNeighbors (g : Grid) (r c : Nat) : Nat :=
  (neighborOffsets.filter
    (fun d => cellAt g ((r : Int) + d.1) ((c : Int) + d.2) == 1)).length

/-- Modelled from the spec: Conway's rule for a single cell —
"birth/survival/death based on live-neighbor count".  A live cell (`1`)
survives with two or three live neighbors and dies otherwise; a dead
cell is born with exactly three live neighbors. -/
def conwayNext (v : Int) (n : Nat) : Int :=
  if v = 1 then
    if n = 2 ∨ n = 3 then 1 else 0
  else
    if n = 3 then 1 else 0

/-- Modelled from the spec: `ConwayLife::step` (declared in the missing
`includes/ConwayLife.hpp`), "a step function applying Conway's rule … to
produce the next generation": every cell of the new grid is `conwayNext`
of the old cell state and its live-neighbor count in the old grid. -/
def ConwayLife.step (g : Grid) : Grid :=
  g.mapIdx fun r row => row.mapIdx fun c v => conwayNext v (liveNeighbors g r c)

/-- An RGBA draw color, as passed to `SDL_SetRenderDrawColor`. -/
structure RGBA where
  r : Nat
  g : Nat
  b : Nat
  a : Nat
deriving DecidableEq, Repr

def whiteRGBA : RGBA := ⟨255, 255, 255, 255⟩

def darkGrayRGBA : RGBA := ⟨50, 50, 50, 255⟩

/-- The SDL2 renderer calls `SdlScreen::render` issues, in order. -/
inductive SdlCmd where
  | setDrawColor (c : RGBA)
  | renderClear
  | fillRect (x y w h : Int)
  | present
deriving DecidableEq, Repr

/-- The commands the body of the inner loop of `SdlScreen::render`
(Screen.hpp) issues for the cell at `(row, col)` holding state `v`:
nothing unless `v == 1`; otherwise a rectangle at
`(col*cellSize, row*cellSize)` of size `cellSize × cellSize` is built, the
draw color is set white if `v == 1` (the nested re-test of the source) and
dark gray otherwise, and the rectangle is filled. -/
def cellCmds (cellSize : Int) (row col : Nat) (v : Int) : List SdlCmd :=
  if v = 1 then
    (if v = 1 then [SdlCmd.setDrawColor whiteRGBA]
     else [SdlCmd.setDrawColor darkGrayRGBA]) ++
    [SdlCmd.fillRect ((col : Int) * cellSize) ((row : Int) * cellSize)
      cellSize cellSize]
  else []

/-- The inner `for (col …)` loop of `SdlScreen::render`, over one row of
the grid starting at column index `col`. -/
def rowCmds (cellSize : Int) (row : Nat) : Nat → List Int → List SdlCmd
  | _, [] => []
  | col, v :: rest =>
    cellCmds cellSize row col v ++ rowCmds cellSize row (col + 1) rest

/-- The outer `for (row …)` loop of `SdlScreen::render`, over the rows of
the grid starting at row index `row`. -/
def rowsCmds (cellSize : Int) : Nat → Grid → List SdlCmd
  | _, [] => []
  | row, rw :: rest =>
    rowCmds cellSize row 0 rw ++ rowsCmds cellSize (row + 1) rest

/-- `SdlScreen::render` (Screen.hpp): clear to black, set the draw color to
white, emit the per-cell commands in row-major order, present. -/
def SdlScreen.render (cellSize : Int) (grid : Grid) : List SdlCmd :=
  [SdlCmd.setDrawColor ⟨0, 0, 0, 255⟩, SdlCmd.renderClear,
   SdlCmd.setDrawColor whiteRGBA] ++
  rowsCmds cellSize 0 grid ++ [SdlCmd.present]

/-- A fill-rectangle call together with the renderer draw color in effect
when it is issued. -/
structure FillCall where
  x : Int
  y : Int
  w : Int
  h : Int
  color : RGBA
deriving DecidableEq, Repr

/-- Interprets a command list, threading the renderer's current draw color,
and collects every fill-rectangle call with its effective color. -/
def fillsFrom : List SdlCmd → RGBA → List FillCall
  | [], _ => []
  | SdlCmd.setDrawColor c :: rest, _ => fillsFrom rest c
  | SdlCmd.fillRect x y w h :: rest, c => ⟨x, y, w, h, c⟩ :: fillsFrom rest c
  | SdlCmd.renderClear :: rest, c => fillsFrom rest c
  | SdlCmd.present :: rest, c => fillsFrom rest c

/-- Whether a command is a fill-rectangle call. -/
def SdlCmd.isFill : SdlCmd → Bool
  | SdlCmd.fillRect _ _ _ _ => true
  | _ => false

/-- The draw color in effect after executing a command list that started
with draw color `c`. -/
def colorAfter : List SdlCmd → RGBA → RGBA
  | [], c => c
  | SdlCmd.setDrawColor c :: rest, _ => colorAfter rest c
  | SdlCmd.fillRect _ _ _ _ :: rest, c => colorAfter rest c
  | SdlCmd.renderClear :: rest, c => colorAfter rest c
  | SdlCmd.present :: rest, c => colorAfter rest c

/-- The fill calls the specification predicts for one row, scanning from
column `col`: one white `cellSize × cellSize` fill at
`(col*cellSize, row*cellSize)` for each cell whose state is `1`, and no
fill for any other cell. -/
def specRowFills (cellSize : Int) (row : Nat) : Nat → List Int → List FillCall
  | _, [] => []
  | col, v :: rest =>
    (if v = 1 then
      [⟨(col : Int) * cellSize, (row : Int) * cellSize, cellSize, cellSize,
        whiteRGBA⟩]
     else []) ++ specRowFills cellSize row (col + 1) rest

/-- The fill calls the specification predicts for a whole grid, in
row-major order starting at row `row`. -/
def specFills (cellSize : Int) : Nat → Grid → List FillCall
  | _, [] => []
  | row, rw :: rest =>
    specRowFills cellSize row 0 rw ++ specFills cellSize (row + 1) rest

/-- One observable action of the main simulation loop of
`Program_04/main.cpp`.  `handleEvents` abstracts the event-polling and
click-handling block at the top of the loop body; the remaining three
actions are the `screen.render(gol.getGrid())`, `gol.step()` and
`screen.pause(500)` calls, in source order. -/
inductive LoopEvent where
  | handleEvents
  | render (g : Grid)
  | stepGrid
  | pause (ms : Nat)
deriving DecidableEq, Repr

/-- The actions of one iteration of the `while (running)` loop of
`Program_04/main.cpp`, given the automaton's grid at loop entry. -/
def loopIter (g : Grid) : List LoopEvent :=
  [LoopEvent.handleEvents, LoopEvent.render g, LoopEvent.stepGrid,
   LoopEvent.pause 500]

/-- The trace of `n` iterations of the main simulation loop started on
grid `g`; each iteration renders the current grid and then steps it. -/
def mainLoopTrace : Nat → Grid → List LoopEvent
  | 0, _ => []
  | Nat.succ n, g => loopIter g ++ mainLoopTrace n (ConwayLife.step g)

/-- A relative live-cell coordinate of a shape (`struct Cell` of the SDL2
grid example). -/
structure ShapeCell where
  x : Int
  y : Int
deriving DecidableEq, Repr

/-- A named pattern (`struct Shape` of the SDL2 grid example): a name,
dimensions, and a list of relative live-cell coordinates. -/
structure Shape where
  name : String
  width : Int
  height : Int
  cells : List ShapeCell
deriving DecidableEq, Repr

/-- The four accumulators `minX`, `maxX`, `minY`, `maxY` of the
shape-centering block of the grid example. -/
structure BBox where
  minX : Int
  maxX : Int
  minY : Int
  maxY : Int
deriving DecidableEq, Repr

/-- One iteration of the centering block's `for (const auto& cell : …)`
loop: update the four running extrema with one cell. -/
def boundsStep (b : BBox) (c : ShapeCell) : BBox :=
  ⟨min b.minX c.x, max b.maxX c.x, min b.minY c.y, max b.maxY c.y⟩

/-- The centering block of the grid example: the accumulators start from
`shape.cells[0]` — out of bounds when the cell list is empty, modelled as
`none` — and the loop then folds every cell into the extrema. -/
def shapeBounds (cells : List ShapeCell) : Option BBox :=
  match cells with
  | [] => none
  | c0 :: _ => some (cells.foldl boundsStep ⟨c0.x, c0.x, c0.y, c0.y⟩)

/-- C++ `int` division, which truncates toward zero. -/
def cppDiv (a b : Int) : Int := Int.tdiv a b

/-- The `patternWidth`/`patternHeight`/`offsetX`/`offsetY` computation of
the grid example, for grid dimensions `gw × gh` and extrema `b`. -/
def shapeOffsets (gw gh : Int) (b : BBox) : Int × Int :=
  (cppDiv (gw - (b.maxX - b.minX + 1)) 2 - b.minX,
   cppDiv (gh - (b.maxY - b.minY + 1)) 2 - b.minY)

/-- The environment the grid example's startup sequence reads: whether
shapes.json opens, parses, and holds a top-level "shapes" key; the loaded
shape names and the name the user enters; the cells of the selected shape;
and whether the SDL init, window and renderer creations succeed. -/
structure LoadEnv where
  fileOk : Bool
  parseOk : Bool
  hasShapesKey : Bool
  shapeNames : List String
  choice : String
  selCells : List ShapeCell
  sdlInitOk : Bool
  windowOk : Bool
  rendererOk : Bool

/-- How the grid example's `main` leaves its startup sequence:
`exitFailure m` prints the error `m` to stderr and returns 1; `ub` marks
the out-of-bounds `shape.cells[0]` access on an empty cell list;
`entersLoop` reaches the window's main loop. -/
inductive StartOutcome where
  | exitFailure (msg : String)
  | ub
  | entersLoop
deriving DecidableEq, Repr

/-- The startup control flow of the grid example's `main`, in source
order: open shapes.json, parse it, check the "shapes" key, check the
entered name, read the selected shape and center it (indexing `cells[0]`),
then initialize SDL and create the window and the renderer; each failure
prints an error and returns 1. -/
def gridExampleStartup (env : LoadEnv) : StartOutcome :=
  if env.fileOk = false then
    StartOutcome.exitFailure "Error: Could not open shapes.json"
  else if env.parseOk = false then
    StartOutcome.exitFailure "JSON parse error"
  else if env.hasShapesKey = false then
    StartOutcome.exitFailure "Error: JSON missing shapes key"
  else if env.shapeNames.contains env.choice = false then
    StartOutcome.exitFailure "Shape not found."
  else if env.selCells = [] then StartOutcome.ub
  else if env.sdlInitOk = false then
    StartOutcome.exitFailure "SDL Init Error"
  else if env.windowOk = false then
    StartOutcome.exitFailure "Window Error"
  else if env.rendererOk = false then
    StartOutcome.exitFailure "Renderer Error"
  else StartOutcome.entersLoop

/-- The SDL2 renderer calls the grid example's main loop issues. -/
inductive GridExCmd where
  | setColor (c : RGBA)
  | clear
  | drawLine (x1 y1 x2 y2 : Int)
  | fillRect (x y w h : Int)
  | present
  | delay (ms : Nat)
deriving DecidableEq, Repr

/-- The coordinates `0, step, 2*step, …` up to `limit` that the grid-line
loops `for (int x = 0; x <= windowWidth; x += cellSize)` visit (for a
positive `step` and non-negative `limit`, the configuration the program
computes). -/
def lineCoords (limit step : Int) : List Int :=
  (List.range ((cppDiv limit step).toNat + 1)).map fun i => (i : Int) * step

/-- One iteration of the grid example's main loop: clear to the dark
blue-gray background, draw the vertical and horizontal grid lines, set the
frame's (randomized) shape color, fill one rectangle per cell of the
selected shape at its offset position, present, and delay 16 ms. -/
def gridExFrame (shape : Shape) (cellSize wW wH offX offY : Int)
    (col : RGBA) : List GridExCmd :=
  [GridExCmd.setColor ⟨30, 30, 40, 255⟩, GridExCmd.clear,
   GridExCmd.setColor ⟨80, 80, 100, 255⟩] ++
  (lineCoords wW cellSize).map (fun x => GridExCmd.drawLine x 0 x wH) ++
  (lineCoords wH cellSize).map (fun y => GridExCmd.drawLine 0 y wW y) ++
  [GridExCmd.setColor col] ++
  shape.cells.map (fun c =>
    GridExCmd.fillRect ((c.x + offX) * cellSize) ((c.y + offY) * cellSize)
      cellSize cellSize) ++
  [GridExCmd.present, GridExCmd.delay 16]

/-- The trace of `n` iterations of the grid example's main loop; the
selected shape is in scope for every iteration, and `colors i` is the
random color drawn in iteration `i`. -/
def gridExTrace (shape : Shape) (cellSize wW wH offX offY : Int)
    (colors : Nat → RGBA) : Nat → List GridExCmd
  | 0 => []
  | Nat.succ n =>
    gridExTrace shape cellSize wW wH offX offY colors n ++
      gridExFrame shape cellSize wW wH offX offY (colors n)

/-- Whether a grid-example command is a fill-rectangle call. -/
def GridExCmd.isFillCmd : GridExCmd → Bool
  | GridExCmd.fillRect _ _ _ _ => true
  | _ => false

/-- The grid-example pipeline after a shape is selected: compute the
bounding box of its cells (undefined for an empty shape), derive the
centering offsets from the grid dimensions
`windowWidth/cellSize × windowHeight/cellSize`, and run `n` frames. -/
def gridExampleRun (shape : Shape) (cellSize wW wH : Int)
    (colors : Nat → RGBA) (n : Nat) : Option (List GridExCmd) :=
  match shapeBounds shape.cells with
  | none => none
  | some b =>
    some (gridExTrace shape cellSize wW wH
      (shapeOffsets (cppDiv wW cellSize) (cppDiv wH cellSize) b).1
      (shapeOffsets (cppDiv wW cellSize) (cppDiv wH cellSize) b).2 colors n)

/-- A JSON scalar as the program's parameter objects hold them: the
defaults are numbers, command-line overrides may be strings. -/
inductive JVal where
  | num (n : Int)
  | str (s : String)
deriving DecidableEq, Repr

/-- A JSON object of scalar values, as an ordered key-value list. -/
abbrev JsonObj := List (String × JVal)

/-- The `defaults` object of `Program_04/main.cpp`. -/
def Program04.defaults : JsonObj :=
  [("width", JVal.num 800), ("height", JVal.num 600),
   ("generations", JVal.num 1000), ("cellSize", JVal.num 10),
   ("frameDelayMs", JVal.num 500)]

/-- The defaults-merge loop of `Program_04/main.cpp`: for each `(key,
value)` of `defaults`, if `params.find(key) == params.end()` the entry
`params[key] = value` is added; a key the user supplied is left alone. -/
def mergeDefaults (params defaults : JsonObj) : JsonObj :=
  defaults.foldl
    (fun ps kv => if (ps.lookup kv.1).isSome then ps else ps ++ [kv]) params

theorem step_length (g : Grid) : (ConwayLife.step g).length = g.length := by
  simp [ConwayLife.step]

theorem step_cell (g : Grid) (r c : Nat)
    (hr : r < g.length) (hc : c < (g.getD r []).length) :
    ((ConwayLife.step g).getD r []).getD c 0 =
      conwayNext ((g.getD r []).getD c 0) (liveNeighbors g r c) := by
  have hr' : r < (ConwayLife.step g).length := by rw [step_length]; exact hr
  have hrow : (ConwayLife.step g).getD r [] =
      (g.getD r []).mapIdx fun c v => conwayNext v (liveNeighbors g r c) := by
    rw [List.getD_eq_getElem _ _ hr', List.getD_eq_getElem _ _ hr]
    exact List.get_mapIdx g _ r hr
  rw [hrow]
  have hc' : c < ((g.getD r []).mapIdx fun c v =>
      conwayNext v (liveNeighbors g r c)).length := by
    simpa using hc
  rw [List.getD_eq_getElem _ _ hc', List.getD_eq_getElem _ _ hc]
  exact List.get_mapIdx _ _ c hc

/-- C1: the automaton's step function produces the next generation by
Conway's rule — every cell's next state is determined solely by its current
state and its live-neighbor count: a live cell (`1`) survives exactly when it
has two or three live neighbors, a dead cell is born exactly when it has
three live neighbors, and every other cell is dead in the next generation. -/
theorem conway_step_next_generation (g : Grid) (r c : Nat)
    (hr : r < g.length) (hc : c < (g.getD r []).length) :
    ((ConwayLife.step g).getD r []).getD c 0 =
      (if (g.getD r []).getD c 0 = 1 then
         if liveNeighbors g r c = 2 ∨ liveNeighbors g r c = 3 then 1 else 0
       else if liveNeighbors g r c = 3 then 1 else 0) := by
  rw [step_cell g r c hr hc]; rfl

theorem conway_step_next_generation_witness :
    ((ConwayLife.step [[0, 0, 0], [1, 1, 1], [0, 0, 0]]).getD 1 []).getD 1 0 =
      (if (([[0, 0, 0], [1, 1, 1], [0, 0, 0]] : Grid).getD 1 []).getD 1 0 = 1 then
         if liveNeighbors [[0, 0, 0], [1, 1, 1], [0, 0, 0]] 1 1 = 2 ∨
            liveNeighbors [[0, 0, 0], [1, 1, 1], [0, 0, 0]] 1 1 = 3 then 1 else 0
       else if liveNeighbors [[0, 0, 0], [1, 1, 1], [0, 0, 0]] 1 1 = 3 then 1 else 0) :=
  conway_step_next_generation [[0, 0, 0], [1, 1, 1], [0, 0, 0]] 1 1
    (by decide) (by decide)

/-- C7: the grid's dimensions are invariant under `step`: the number of rows
and the length of every row after a step equal those before it. -/
theorem conway_step_preserves_dims (g : Grid) :
    (ConwayLife.step g).length = g.length ∧
    ∀ r : Nat, ((ConwayLife.step g).getD r []).length = (g.getD r []).length := by
  refine ⟨step_length g, fun r => ?_⟩
  by_cases hr : r < g.length
  · have hr' : r < (ConwayLife.step g).length := by rw [step_length]; exact hr
    rw [List.getD_eq_getElem _ _ hr', List.getD_eq_getElem _ _ hr]
    have hrow := List.get_mapIdx g
      (fun r row => row.mapIdx fun c v => conwayNext v (liveNeighbors g r c)) r hr
    show ((ConwayLife.step g).get ⟨r, hr'⟩).length = (g.get ⟨r, hr⟩).length
    rw [show (ConwayLife.step g).get ⟨r, hr'⟩ =
      ((g.get ⟨r, hr⟩).mapIdx fun c v => conwayNext v (liveNeighbors g r c)) from hrow]
    simp
  · have hr' : (ConwayLife.step g).length ≤ r := by
      rw [step_length]; exact Nat.le_of_not_lt hr
    rw [List.getD_eq_default _ _ hr', List.getD_eq_default _ _ (Nat.le_of_not_lt hr)]

theorem colorAfter_append (l₁ l₂ : List SdlCmd) (c : RGBA) :
    colorAfter (l₁ ++ l₂) c = colorAfter l₂ (colorAfter l₁ c) := by
  induction l₁ generalizing c with
  | nil => rfl
  | cons cmd rest ih => cases cmd <;> simp [colorAfter, ih]

theorem fillsFrom_append (l₁ l₂ : List SdlCmd) (c : RGBA) :
    fillsFrom (l₁ ++ l₂) c =
      fillsFrom l₁ c ++ fillsFrom l₂ (colorAfter l₁ c) := by
  induction l₁ generalizing c with
  | nil => rfl
  | cons cmd rest ih => cases cmd <;> simp [fillsFrom, colorAfter, ih]

theorem fillsFrom_rowCmds (cellSize : Int) (row : Nat) (col : Nat)
    (l : List Int) :
    fillsFrom (rowCmds cellSize row col l) whiteRGBA =
        specRowFills cellSize row col l ∧
      colorAfter (rowCmds cellSize row col l) whiteRGBA = whiteRGBA := by
  induction l generalizing col with
  | nil => exact ⟨rfl, rfl⟩
  | cons v rest ih =>
    by_cases hv : v = 1
    · simp only [rowCmds, cellCmds, specRowFills, hv, if_pos rfl, fillsFrom_append]
      simp [fillsFrom, colorAfter, ih (col + 1)]
    · simp only [rowCmds, cellCmds, specRowFills, if_neg hv, fillsFrom_append]
      simp [fillsFrom, colorAfter, ih (col + 1)]

theorem fillsFrom_rowsCmds (cellSize : Int) (row : Nat) (g : Grid) :
    fillsFrom (rowsCmds cellSize row g) whiteRGBA =
        specFills cellSize row g ∧
      colorAfter (rowsCmds cellSize row g) whiteRGBA = whiteRGBA := by
  induction g generalizing row with
  | nil => exact ⟨rfl, rfl⟩
  | cons rw rest ih =>
    simp only [rowsCmds, specFills, fillsFrom_append, colorAfter_append,
      (fillsFrom_rowCmds cellSize row 0 rw).1,
      (fillsFrom_rowCmds cellSize row 0 rw).2,
      (ih (row + 1)).1, (ih (row + 1)).2, and_self]

/-- Whatever draw color the renderer starts in, the fill calls of
`SdlScreen::render` are exactly the specification's fill calls. -/
theorem fillsFrom_render (cellSize : Int) (g : Grid) (c₀ : RGBA) :
    fillsFrom (SdlScreen.render cellSize g) c₀ = specFills cellSize 0 g := by
  simp only [SdlScreen.render, List.cons_append, List.nil_append]
  simp only [fillsFrom, colorAfter, fillsFrom_append,
    (fillsFrom_rowsCmds cellSize 0 g).1, (fillsFrom_rowsCmds cellSize 0 g).2,
    List.append_nil]

theorem length_fillsFrom (l : List SdlCmd) (c : RGBA) :
    (fillsFrom l c).length = l.countP SdlCmd.isFill := by
  induction l generalizing c with
  | nil => rfl
  | cons cmd rest ih =>
    cases cmd <;> simp [fillsFrom, SdlCmd.isFill, List.countP_cons, ih]

theorem length_specRowFills (cellSize : Int) (row col : Nat) (l : List Int) :
    (specRowFills cellSize row col l).length =
      l.countP (fun u => u == 1) := by
  induction l generalizing col with
  | nil => rfl
  | cons v rest ih =>
    by_cases hv : v = 1 <;>
      simp [specRowFills, List.countP_cons, hv, ih (col + 1)]

theorem length_specFills (cellSize : Int) (row : Nat) (g : Grid) :
    (specFills cellSize row g).length =
      (g.map fun rw => rw.countP (fun u => u == 1)).sum := by
  induction g generalizing row with
  | nil => rfl
  | cons rw rest ih =>
    simp [specFills, length_specRowFills, ih (row + 1)]

theorem specRowFills_white (cellSize : Int) (row col : Nat) (l : List Int) :
    ∀ f ∈ specRowFills cellSize row col l, f.color = whiteRGBA := by
  induction l generalizing col with
  | nil => intro f hf; cases hf
  | cons v rest ih =>
    intro f hf
    simp only [specRowFills] at hf
    rcases List.mem_append.mp hf with hf | hf
    · by_cases hv : v = 1
      · rw [if_pos hv] at hf
        rcases List.mem_singleton.mp hf with rfl
        rfl
      · rw [if_neg hv] at hf; cases hf
    · exact ih (col + 1) f hf

theorem specFills_white (cellSize : Int) (row : Nat) (g : Grid) :
    ∀ f ∈ specFills cellSize row g, f.color = whiteRGBA := by
  induction g generalizing row with
  | nil => intro f hf; cases hf
  | cons rw rest ih =>
    intro f hf
    simp only [specFills] at hf
    rcases List.mem_append.mp hf with hf | hf
    · exact specRowFills_white cellSize row 0 rw f hf
    · exact ih (row + 1) f hf

theorem gray_not_mem_cellCmds (cellSize : Int) (row col : Nat) (v : Int) :
    SdlCmd.setDrawColor darkGrayRGBA ∉ cellCmds cellSize row col v := by
  by_cases hv : v = 1 <;> simp [cellCmds, hv, whiteRGBA, darkGrayRGBA]

theorem gray_not_mem_rowCmds (cellSize : Int) (row col : Nat) (l : List Int) :
    SdlCmd.setDrawColor darkGrayRGBA ∉ rowCmds cellSize row col l := by
  induction l generalizing col with
  | nil => simp [rowCmds]
  | cons v rest ih =>
    simp only [rowCmds, List.mem_append, not_or]
    exact ⟨gray_not_mem_cellCmds cellSize row col v, ih (col + 1)⟩

theorem gray_not_mem_rowsCmds (cellSize : Int) (row : Nat) (g : Grid) :
    SdlCmd.setDrawColor darkGrayRGBA ∉ rowsCmds cellSize row g := by
  induction g generalizing row with
  | nil => simp [rowsCmds]
  | cons rw rest ih =>
    simp only [rowsCmds, List.mem_append, not_or]
    exact ⟨gray_not_mem_rowCmds cellSize row 0 rw, ih (row + 1)⟩

/-- C2: the grid holds integer cell states with alive encoded as `1`:
`SdlScreen::render` emits a fill-rectangle call for a cell exactly when its
state equals `1` (and emits nothing at all for any other state), and over
the whole grid the number of fill-rectangle commands equals the number of
cells whose state is `1`. -/
theorem render_fill_iff_state_one (cellSize : Int) (grid : Grid)
    (row col : Nat) (v : Int) :
    ((∃ x y w h, SdlCmd.fillRect x y w h ∈ cellCmds cellSize row col v) ↔
        v = 1) ∧
    (cellCmds cellSize row col v = [] ↔ v ≠ 1) ∧
    ((SdlScreen.render cellSize grid).countP SdlCmd.isFill =
      (grid.map fun rw => rw.countP (fun u => u == 1)).sum) := by
  refine ⟨?_, ?_, ?_⟩
  · constructor
    · rintro ⟨x, y, w, h, hmem⟩
      by_cases hv : v = 1
      · exact hv
      · simp [cellCmds, hv] at hmem
    · intro hv
      refine ⟨(col : Int) * cellSize, (row : Int) * cellSize, cellSize,
        cellSize, ?_⟩
      simp [cellCmds, hv]
  · constructor
    · intro he hv
      rw [hv] at he
      simp [cellCmds] at he
    · intro hv
      simp [cellCmds, hv]
  · rw [← length_fillsFrom _ whiteRGBA, fillsFrom_render,
      length_specFills]

/-- C3: for every grid, `SdlScreen::render` scans every `(row, col)`
position in row-major order and its fill-rectangle calls are exactly one
call per cell of state `1`, at pixel position
`(col*cellSize, row*cellSize)` with width and height `cellSize`, and no
call for any cell of other state — whatever draw color the renderer
started in. -/
theorem render_fills_exactly_live_cells (cellSize : Int) (grid : Grid)
    (c₀ : RGBA) :
    fillsFrom (SdlScreen.render cellSize grid) c₀ = specFills cellSize 0 grid :=
  fillsFrom_render cellSize grid c₀

/-- C8: the dead-cell branch of `SdlScreen::render` is unreachable — the
dark-gray draw color is never set during a render, and every
fill-rectangle call is issued with the white draw color. -/
theorem render_gray_branch_unreachable (cellSize : Int) (grid : Grid)
    (c₀ : RGBA) :
    SdlCmd.setDrawColor darkGrayRGBA ∉ SdlScreen.render cellSize grid ∧
    ∀ f ∈ fillsFrom (SdlScreen.render cellSize grid) c₀,
      f.color = whiteRGBA := by
  constructor
  · simp only [SdlScreen.render, List.cons_append, List.nil_append,
      List.mem_cons, List.mem_append, not_or]
    refine ⟨by simp [darkGrayRGBA], by simp, by simp [whiteRGBA, darkGrayRGBA],
      gray_not_mem_rowsCmds cellSize 0 grid, by simp⟩
  · intro f hf
    rw [fillsFrom_render] at hf
    exact specFills_white cellSize 0 grid f hf

/-- C4: the update rule is applied exactly once per frame — the trace of
`n` main-loop iterations is exactly `n` frames, the `i`-th frame being one
event poll, one render of the `i`-times-stepped initial grid, then exactly
one step, then one 500 ms pause; in particular the grid is stepped exactly
once between two consecutive renders. -/
theorem main_loop_steps_once_per_frame (n : Nat) (g : Grid) :
    mainLoopTrace n g =
      (List.range n).flatMap fun i =>
        [LoopEvent.handleEvents, LoopEvent.render (ConwayLife.step^[i] g),
         LoopEvent.stepGrid, LoopEvent.pause 500] := by
  induction n generalizing g with
  | zero => rfl
  | succ n ih =>
    rw [mainLoopTrace, ih (ConwayLife.step g), List.range_succ_eq_map,
      List.flatMap_cons, List.flatMap_map]
    simp only [Function.iterate_zero_apply, loopIter,
      Function.iterate_succ_apply]

theorem foldl_boundsStep_minX_le (cells : List ShapeCell) (b : BBox) :
    (cells.foldl boundsStep b).minX ≤ b.minX ∧
    ∀ c ∈ cells, (cells.foldl boundsStep b).minX ≤ c.x := by
  induction cells generalizing b with
  | nil => exact ⟨le_refl _, fun c hc => absurd hc (List.not_mem_nil c)⟩
  | cons c cells ih =>
    rw [List.foldl_cons]
    refine ⟨le_trans (ih (boundsStep b c)).1 (min_le_left _ _), ?_⟩
    intro d hd
    rcases List.mem_cons.mp hd with rfl | hd
    · exact le_trans (ih (boundsStep b d)).1 (min_le_right _ _)
    · exact (ih (boundsStep b c)).2 d hd

theorem foldl_boundsStep_minX_mem (cells : List ShapeCell) (b : BBox) :
    (cells.foldl boundsStep b).minX = b.minX ∨
    (cells.foldl boundsStep b).minX ∈ cells.map ShapeCell.x := by
  induction cells generalizing b with
  | nil => exact Or.inl rfl
  | cons c cells ih =>
    rw [List.foldl_cons]
    rcases ih (boundsStep b c) with h | h
    · rw [h]
      simp only [boundsStep]
      rcases min_choice b.minX c.x with h' | h'
      · exact Or.inl h'
      · right
        rw [List.map_cons, h']
        exact List.mem_cons_self _ _
    · right
      rw [List.map_cons]
      exact List.mem_cons_of_mem _ h

theorem foldl_boundsStep_maxX_ge (cells : List ShapeCell) (b : BBox) :
    b.maxX ≤ (cells.foldl boundsStep b).maxX ∧
    ∀ c ∈ cells, c.x ≤ (cells.foldl boundsStep b).maxX := by
  induction cells generalizing b with
  | nil => exact ⟨le_refl _, fun c hc => absurd hc (List.not_mem_nil c)⟩
  | cons c cells ih =>
    rw [List.foldl_cons]
    refine ⟨le_trans (le_max_left _ _) (ih (boundsStep b c)).1, ?_⟩
    intro d hd
    rcases List.mem_cons.mp hd with rfl | hd
    · exact le_trans (le_max_right _ _) (ih (boundsStep b d)).1
    · exact (ih (boundsStep b c)).2 d hd

theorem foldl_boundsStep_maxX_mem (cells : List ShapeCell) (b : BBox) :
    (cells.foldl boundsStep b).maxX = b.maxX ∨
    (cells.foldl boundsStep b).maxX ∈ cells.map ShapeCell.x := by
  induction cells generalizing b with
  | nil => exact Or.inl rfl
  | cons c cells ih =>
    rw [List.foldl_cons]
    rcases ih (boundsStep b c) with h | h
    · rw [h]
      simp only [boundsStep]
      rcases max_choice b.maxX c.x with h' | h'
      · exact Or.inl h'
      · right
        rw [List.map_cons, h']
        exact List.mem_cons_self _ _
    · right
      rw [List.map_cons]
      exact List.mem_cons_of_mem _ h

theorem foldl_boundsStep_minY_le (cells : List ShapeCell) (b : BBox) :
    (cells.foldl boundsStep b).minY ≤ b.minY ∧
    ∀ c ∈ cells, (cells.foldl boundsStep b).minY ≤ c.y := by
  induction cells generalizing b with
  | nil => exact ⟨le_refl _, fun c hc => absurd hc (List.not_mem_nil c)⟩
  | cons c cells ih =>
    rw [List.foldl_cons]
    refine ⟨le_trans (ih (boundsStep b c)).1 (min_le_left _ _), ?_⟩
    intro d hd
    rcases List.mem_cons.mp hd with rfl | hd
    · exact le_trans (ih (boundsStep b d)).1 (min_le_right _ _)
    · exact (ih (boundsStep b c)).2 d hd

theorem foldl_boundsStep_minY_mem (cells : List ShapeCell) (b : BBox) :
    (cells.foldl boundsStep b).minY = b.minY ∨
    (cells.foldl boundsStep b).minY ∈ cells.map ShapeCell.y := by
  induction cells generalizing b with
  | nil => exact Or.inl rfl
  | cons c cells ih =>
    rw [List.foldl_cons]
    rcases ih (boundsStep b c) with h | h
    · rw [h]
      simp only [boundsStep]
      rcases min_choice b.minY c.y with h' | h'
      · exact Or.inl h'
      · right
        rw [List.map_cons, h']
        exact List.mem_cons_self _ _
    · right
      rw [List.map_cons]
      exact List.mem_cons_of_mem _ h

theorem foldl_boundsStep_maxY_ge (cells : List ShapeCell) (b : BBox) :
    b.maxY ≤ (cells.foldl boundsStep b).maxY ∧
    ∀ c ∈ cells, c.y ≤ (cells.foldl boundsStep b).maxY := by
  induction cells generalizing b with
  | nil => exact ⟨le_refl _, fun c hc => absurd hc (List.not_mem_nil c)⟩
  | cons c cells ih =>
    rw [List.foldl_cons]
    refine ⟨le_trans (le_max_left _ _) (ih (boundsStep b c)).1, ?_⟩
    intro d hd
    rcases List.mem_cons.mp hd with rfl | hd
    · exact le_trans (le_max_right _ _) (ih (boundsStep b d)).1
    · exact (ih (boundsStep b c)).2 d hd

theorem foldl_boundsStep_maxY_mem (cells : List ShapeCell) (b : BBox) :
    (cells.foldl boundsStep b).maxY = b.maxY ∨
    (cells.foldl boundsStep b).maxY ∈ cells.map ShapeCell.y := by
  induction cells generalizing b with
  | nil => exact Or.inl rfl
  | cons c cells ih =>
    rw [List.foldl_cons]
    rcases ih (boundsStep b c) with h | h
    · rw [h]
      simp only [boundsStep]
      rcases max_choice b.maxY c.y with h' | h'
      · exact Or.inl h'
      · right
        rw [List.map_cons, h']
        exact List.mem_cons_self _ _
    · right
      rw [List.map_cons]
      exact List.mem_cons_of_mem _ h

theorem bounds_extrema (c0 : ShapeCell) (rest : List ShapeCell) :
    ∃ b, shapeBounds (c0 :: rest) = some b ∧
      (b.minX ∈ (c0 :: rest).map ShapeCell.x ∧
        ∀ c ∈ c0 :: rest, b.minX ≤ c.x) ∧
      (b.maxX ∈ (c0 :: rest).map ShapeCell.x ∧
        ∀ c ∈ c0 :: rest, c.x ≤ b.maxX) ∧
      (b.minY ∈ (c0 :: rest).map ShapeCell.y ∧
        ∀ c ∈ c0 :: rest, b.minY ≤ c.y) ∧
      (b.maxY ∈ (c0 :: rest).map ShapeCell.y ∧
        ∀ c ∈ c0 :: rest, c.y ≤ b.maxY) := by
  refine ⟨((c0 :: rest).foldl boundsStep ⟨c0.x, c0.x, c0.y, c0.y⟩), rfl,
    ⟨?_, (foldl_boundsStep_minX_le _ _).2⟩,
    ⟨?_, (foldl_boundsStep_maxX_ge _ _).2⟩,
    ⟨?_, (foldl_boundsStep_minY_le _ _).2⟩,
    ⟨?_, (foldl_boundsStep_maxY_ge _ _).2⟩⟩
  · rcases foldl_boundsStep_minX_mem (c0 :: rest) ⟨c0.x, c0.x, c0.y, c0.y⟩
      with h | h
    · rw [h, List.map_cons]; exact List.mem_cons_self _ _
    · exact h
  · rcases foldl_boundsStep_maxX_mem (c0 :: rest) ⟨c0.x, c0.x, c0.y, c0.y⟩
      with h | h
    · rw [h, List.map_cons]; exact List.mem_cons_self _ _
    · exact h
  · rcases foldl_boundsStep_minY_mem (c0 :: rest) ⟨c0.x, c0.x, c0.y, c0.y⟩
      with h | h
    · rw [h, List.map_cons]; exact List.mem_cons_self _ _
    · exact h
  · rcases foldl_boundsStep_maxY_mem (c0 :: rest) ⟨c0.x, c0.x, c0.y, c0.y⟩
      with h | h
    · rw [h, List.map_cons]; exact List.mem_cons_self _ _
    · exact h

/-- C9: the centering block of the grid example indexes `shape.cells[0]`
with no emptiness check, so `shapeBounds` is defined only for a non-empty
cell list (`none` on the empty one); for a shape with at least one cell,
`minX`/`maxX`/`minY`/`maxY` are exactly the minimum and maximum `x` and
`y` over all cells, the offsets place the left edge of the bounding box at
column `(gridWidth - patternWidth) / 2` (C++ truncating division, likewise
vertically), and whenever the pattern fits, the left and right (top and
bottom) margins around the shifted bounding box differ by at most one
cell. -/
theorem centering_bounds_and_offsets (cells : List ShapeCell) (gw gh : Int)
    (h : cells ≠ []) :
    shapeBounds ([] : List ShapeCell) = none ∧
    ∃ b, shapeBounds cells = some b ∧
      (b.minX ∈ cells.map ShapeCell.x ∧ ∀ c ∈ cells, b.minX ≤ c.x) ∧
      (b.maxX ∈ cells.map ShapeCell.x ∧ ∀ c ∈ cells, c.x ≤ b.maxX) ∧
      (b.minY ∈ cells.map ShapeCell.y ∧ ∀ c ∈ cells, b.minY ≤ c.y) ∧
      (b.maxY ∈ cells.map ShapeCell.y ∧ ∀ c ∈ cells, c.y ≤ b.maxY) ∧
      b.minX + (shapeOffsets gw gh b).1 =
        cppDiv (gw - (b.maxX - b.minX + 1)) 2 ∧
      b.minY + (shapeOffsets gw gh b).2 =
        cppDiv (gh - (b.maxY - b.minY + 1)) 2 ∧
      (0 ≤ gw - (b.maxX - b.minX + 1) →
        b.minX + (shapeOffsets gw gh b).1 ≤
          gw - (b.maxX + (shapeOffsets gw gh b).1 + 1) ∧
        gw - (b.maxX + (shapeOffsets gw gh b).1 + 1) ≤
          b.minX + (shapeOffsets gw gh b).1 + 1) ∧
      (0 ≤ gh - (b.maxY - b.minY + 1) →
        b.minY + (shapeOffsets gw gh b).2 ≤
          gh - (b.maxY + (shapeOffsets gw gh b).2 + 1) ∧
        gh - (b.maxY + (shapeOffsets gw gh b).2 + 1) ≤
          b.minY + (shapeOffsets gw gh b).2 + 1) := by
  obtain ⟨c0, rest, rfl⟩ := List.exists_cons_of_ne_nil h
  obtain ⟨b, hb, h1, h2, h3, h4⟩ := bounds_extrema c0 rest
  refine ⟨rfl, b, hb, h1, h2, h3, h4, ?_, ?_, ?_, ?_⟩
  · simp only [shapeOffsets]; ring
  · simp only [shapeOffsets]; ring
  · intro ha
    have hd : cppDiv (gw - (b.maxX - b.minX + 1)) 2 =
        (gw - (b.maxX - b.minX + 1)) / 2 := Int.tdiv_eq_ediv ha (by norm_num)
    simp only [shapeOffsets]
    rw [hd]
    omega
  · intro ha
    have hd : cppDiv (gh - (b.maxY - b.minY + 1)) 2 =
        (gh - (b.maxY - b.minY + 1)) / 2 := Int.tdiv_eq_ediv ha (by norm_num)
    simp only [shapeOffsets]
    rw [hd]
    omega

theorem centering_bounds_and_offsets_witness :
    shapeBounds ([] : List ShapeCell) = none :=
  (centering_bounds_and_offsets [⟨0, 0⟩, ⟨2, 1⟩] 30 20 (by decide)).1

/-- C6: load failures are checked before any simulation work — provided
the selected shape is non-empty (the unchecked `cells[0]` access aside,
see C9), the grid example prints an error and exits with status 1 exactly
when shapes.json fails to open, fails to parse, lacks the "shapes" key, the
entered name is not among the loaded shapes, or SDL init, window or
renderer creation fails; in every other case it enters the main loop. -/
theorem startup_exits_iff_load_failure (env : LoadEnv)
    (hcells : env.selCells ≠ []) :
    ((∃ m, gridExampleStartup env = StartOutcome.exitFailure m) ↔
      (env.fileOk = false ∨ env.parseOk = false ∨ env.hasShapesKey = false ∨
       env.shapeNames.contains env.choice = false ∨ env.sdlInitOk = false ∨
       env.windowOk = false ∨ env.rendererOk = false)) ∧
    (gridExampleStartup env = StartOutcome.entersLoop ↔
      (env.fileOk = true ∧ env.parseOk = true ∧ env.hasShapesKey = true ∧
       env.shapeNames.contains env.choice = true ∧ env.sdlInitOk = true ∧
       env.windowOk = true ∧ env.rendererOk = true)) := by
  obtain ⟨fo, po, hk, ns, ch, sc, si, wo, ro⟩ := env
  simp only [ne_eq] at hcells
  by_cases hmem : ch ∈ ns
  · have hcont : ns.contains ch = true := List.elem_iff.mpr hmem
    cases fo <;> cases po <;> cases hk <;> cases si <;> cases wo <;>
      cases ro <;> simp [gridExampleStartup, hcont, hcells, hmem]
  · have hcont : ns.contains ch = false := by
      rw [← Bool.not_eq_true]
      exact fun hcon => hmem (List.elem_iff.mp hcon)
    cases fo <;> cases po <;> cases hk <;> cases si <;> cases wo <;>
      cases ro <;> simp [gridExampleStartup, hcont, hcells, hmem]

theorem startup_exits_iff_load_failure_witness :
    gridExampleStartup
        ⟨true, true, true, ["glider"], "glider", [⟨0, 0⟩], true, true, true⟩ =
      StartOutcome.entersLoop :=
  ((startup_exits_iff_load_failure
      ⟨true, true, true, ["glider"], "glider", [⟨0, 0⟩], true, true, true⟩
      (by decide)).2).mpr (by decide)

/-- C5 counterexample: the shape data is not "used only to seed" — it keeps
affecting the program after the first frame.  Two concrete shapes with the
same name-independent geometry (identical bounding boxes, hence identical
centering offsets) but different cells still produce different draw
commands in the second frame: dropping the 60 commands of the first frame
from both two-frame traces leaves different command lists. -/
theorem shape_used_beyond_first_frame :
    (gridExampleRun ⟨"a", 3, 3, [⟨0, 0⟩, ⟨2, 2⟩]⟩ 20 600 400
        (fun _ => ⟨200, 10, 10, 255⟩) 2).map (fun t => t.drop 60) ≠
    (gridExampleRun ⟨"b", 3, 3, [⟨0, 2⟩, ⟨2, 0⟩]⟩ 20 600 400
        (fun _ => ⟨200, 10, 10, 255⟩) 2).map (fun t => t.drop 60) := by
  decide

/-- C5 (amended): the shape — a named pattern with width, height and a
list of relative live-cell coordinates — is loaded from the static
shapes.json before the loop; but the grid example maintains no grid for it
to seed: its main loop draws the shape's cells directly in every frame, so
the shape data determines the output of every frame, not only of an
initial seeding.  The trace of `n` frames is the frame command list
repeated (with the per-frame random color), and the fill-rectangle calls
of every single frame are exactly one rectangle per cell of the shape. -/
theorem grid_example_draws_shape_every_frame (shape : Shape)
    (cellSize wW wH offX offY : Int) (colors : Nat → RGBA) (n : Nat) :
    gridExTrace shape cellSize wW wH offX offY colors n =
      (List.range n).flatMap
        (fun i => gridExFrame shape cellSize wW wH offX offY (colors i)) ∧
    ∀ i : Nat,
      (gridExFrame shape cellSize wW wH offX offY (colors i)).filter
          GridExCmd.isFillCmd =
        shape.cells.map (fun c =>
          GridExCmd.fillRect ((c.x + offX) * cellSize)
            ((c.y + offY) * cellSize) cellSize cellSize) := by
  constructor
  · induction n with
    | zero => rfl
    | succ n ih =>
      rw [gridExTrace, ih, List.range_succ, List.flatMap_append,
        List.flatMap_cons, List.flatMap_nil, List.append_nil]
  · intro i
    simp only [gridExFrame, List.filter_append, List.filter_map]
    simp [GridExCmd.isFillCmd, List.filter_cons, Function.comp_def]

theorem lookup_append_some {ps : JsonObj} {k : String} {v : JVal}
    (h : ps.lookup k = some v) (kv : String × JVal) :
    (ps ++ [kv]).lookup k = some v := by
  induction ps with
  | nil => cases h
  | cons p ps ih =>
    obtain ⟨pk, pv⟩ := p
    rw [List.lookup_cons] at h
    rw [List.cons_append, List.lookup_cons]
    cases hk : (k == pk)
    · simp only [hk] at h ⊢
      exact ih h
    · simp only [hk] at h ⊢
      exact h

theorem lookup_append_none {ps : JsonObj} {k : String}
    (h : ps.lookup k = none) (kv : String × JVal) :
    (ps ++ [kv]).lookup k = if k == kv.1 then some kv.2 else none := by
  induction ps with
  | nil =>
    rw [List.nil_append, List.lookup_cons]
    cases hk : (k == kv.1) <;> simp [hk, List.lookup_nil]
  | cons p ps ih =>
    obtain ⟨pk, pv⟩ := p
    rw [List.lookup_cons] at h
    rw [List.cons_append, List.lookup_cons]
    cases hk : (k == pk)
    · simp only [hk] at h ⊢
      exact ih h
    · simp only [hk] at h ⊢
      exact Option.noConfusion h

theorem mergeDefaults_keeps_user (ds : JsonObj) (ps : JsonObj) (k : String)
    (v : JVal) (h : ps.lookup k = some v) :
    (mergeDefaults ps ds).lookup k = some v := by
  induction ds generalizing ps with
  | nil => exact h
  | cons d ds ih =>
    rw [mergeDefaults, List.foldl_cons]
    by_cases hd : (ps.lookup d.1).isSome
    · rw [if_pos hd]
      exact ih ps h
    · rw [if_neg hd]
      exact ih (ps ++ [d]) (lookup_append_some h d)

theorem mergeDefaults_covers (ds : JsonObj) (ps : JsonObj) (k : String)
    (v : JVal) (h : (k, v) ∈ ds) :
    ∃ u, (mergeDefaults ps ds).lookup k = some u := by
  induction ds generalizing ps with
  | nil => cases h
  | cons d ds ih =>
    rw [mergeDefaults, List.foldl_cons]
    rcases List.mem_cons.mp h with rfl | hmem
    · by_cases hd : (ps.lookup k).isSome
      · rw [if_pos hd]
        obtain ⟨u, hu⟩ := Option.isSome_iff_exists.mp hd
        exact ⟨u, mergeDefaults_keeps_user ds ps k u hu⟩
      · rw [if_neg hd]
        have hnone : ps.lookup k = none :=
          Option.not_isSome_iff_eq_none.mp hd
        have : (ps ++ [(k, v)]).lookup k = some v := by
          rw [lookup_append_none hnone]
          simp
        exact ⟨v, mergeDefaults_keeps_user ds _ k v this⟩
    · by_cases hd : (ps.lookup d.1).isSome
      · rw [if_pos hd]
        exact ih ps hmem
      · rw [if_neg hd]
        exact ih (ps ++ [d]) hmem

theorem mergeDefaults_fills_missing (ds : JsonObj) (ps : JsonObj)
    (k : String) (v : JVal) (hmem : (k, v) ∈ ds)
    (hnone : ps.lookup k = none) (hnodup : (ds.map Prod.fst).Nodup) :
    (mergeDefaults ps ds).lookup k = some v := by
  induction ds generalizing ps with
  | nil => cases hmem
  | cons d ds ih =>
    rw [List.map_cons] at hnodup
    obtain ⟨hd1, hnodup'⟩ := List.nodup_cons.mp hnodup
    rw [mergeDefaults, List.foldl_cons]
    rcases List.mem_cons.mp hmem with heq | hmem'
    · obtain rfl := heq.symm
      rw [if_neg (by simp [hnone])]
      have hap : (ps ++ [(k, v)]).lookup k = some v := by
        rw [lookup_append_none hnone]
        simp
      exact mergeDefaults_keeps_user ds _ k v hap
    · have hkne : k ≠ d.1 :=
        fun he => hd1 (he ▸ List.mem_map_of_mem Prod.fst hmem')
      by_cases hd : (ps.lookup d.1).isSome
      · rw [if_pos hd]
        exact ih ps hmem' hnone hnodup'
      · rw [if_neg hd]
        have hnone' : (ps ++ [d]).lookup k = none := by
          rw [lookup_append_none hnone]
          simp [hkne]
        exact ih (ps ++ [d]) hmem' hnone' hnodup'

/-- C10: after the defaults-merge loop of `Program_04/main.cpp`, the
params object contains every key of `defaults` ("width", "height",
"generations", "cellSize", "frameDelayMs"); every key the user supplied
keeps the user's value unchanged, and exactly the defaults keys absent
from the user's arguments receive the default value. -/
theorem merge_defaults_correct (ps : JsonObj) :
    (∀ kv ∈ Program04.defaults,
      ∃ u, (mergeDefaults ps Program04.defaults).lookup kv.1 = some u) ∧
    (∀ k v, ps.lookup k = some v →
      (mergeDefaults ps Program04.defaults).lookup k = some v) ∧
    (∀ kv ∈ Program04.defaults, ps.lookup kv.1 = none →
      (mergeDefaults ps Program04.defaults).lookup kv.1 = some kv.2) := by
  refine ⟨?_, fun k v h => mergeDefaults_keeps_user _ ps k v h, ?_⟩
  · rintro ⟨k, v⟩ hkv
    exact mergeDefaults_covers _ ps k v hkv
  · rintro ⟨k, v⟩ hkv hnone
    exact mergeDefaults_fills_missing _ ps k v hkv hnone (by decide)
